import Mathlib

/-!
# Finite-difference derivative approximations (`derivatives.h`)

A shallow embedding of the four operations `dfdx`, `d2fdx2`, `d3fdx3` and
`d4fdx4` of `derivatives.h`.

* The numeric type `T` of the C++ templates is an arbitrary field with
  decidable equality, so the same definitions run over `ℚ` and are reasoned
  about over `ℝ` (exact arithmetic; rounding is not modelled).
* `std::numeric_limits<T>::epsilon()` and `sqrt` are parameters `eps` and
  `sqrt` of every operation.
* The final division of every operation goes through `guardedDiv`, which
  answers `none` on a zero divisor, so that "no division by zero" is a
  statement about the embedding.
-/

namespace Derivatives

/-- Division with an explicit guard on the divisor: `none` stands for a
division by zero. -/
def guardedDiv {T : Type} [Field T] [DecidableEq T] (num den : T) : Option T :=
  if den = 0 then none else some (num / den)

/-- First derivative based on the four-point central difference
(`dfdx`, derivatives.h lines 44-59). -/
def dfdx {T : Type} [Field T] [DecidableEq T] (eps : T) (sqrt : T → T)
    (f : T → T) (xi : T) : Option T :=
  let h := sqrt eps * xi
  let h := if h = 0 then eps else h
  guardedDiv (f (xi - 2 * h) - 8 * f (xi - h) + 8 * f (xi + h) - f (xi + 2 * h)) (12 * h)

/-- Second derivative based on the five-point central difference
(`d2fdx2`, derivatives.h lines 62-78). -/
def d2fdx2 {T : Type} [Field T] [DecidableEq T] (eps : T) (sqrt : T → T)
    (f : T → T) (xi : T) : Option T :=
  let h := sqrt eps * xi
  let h := if h = 0 then eps else h
  guardedDiv
    (-f (xi - 2 * h) + 16 * f (xi - h) - 30 * f xi + 16 * f (xi + h) - f (xi + 2 * h))
    (12 * h * h)

/-- Third derivative based on the six-point central difference
(`d3fdx3`, derivatives.h lines 81-97). -/
def d3fdx3 {T : Type} [Field T] [DecidableEq T] (eps : T) (sqrt : T → T)
    (f : T → T) (xi : T) : Option T :=
  let h := sqrt eps * xi
  let h := if h = 0 then eps else h
  guardedDiv
    (f (xi - 3 * h) - 8 * f (xi - 2 * h) + 13 * f (xi - h) - 13 * f (xi + h)
      + 8 * f (xi + 2 * h) - f (xi + 3 * h))
    (8 * h * h * h)

/-- Fourth derivative based on the seven-point central difference
(`d4fdx4`, derivatives.h lines 100-116). -/
def d4fdx4 {T : Type} [Field T] [DecidableEq T] (eps : T) (sqrt : T → T)
    (f : T → T) (xi : T) : Option T :=
  let h := sqrt eps * xi
  let h := if h = 0 then eps else h
  guardedDiv
    (f (xi - 3 * h) + 12 * f (xi - 2 * h) - 39 * f (xi - h) + 56 * f xi + 39 * f (xi + h)
      + 12 * f (xi + 2 * h) - f (xi + 3 * h))
    (6 * h * h * h * h)

/-- The step computed by the first three statements of each operation
(`eps`, `h = sqrt(eps) * xi`, `if (h == 0) h = eps`). -/
def stepSize {T : Type} [Field T] [DecidableEq T] (eps : T) (sqrt : T → T) (xi : T) : T :=
  let h := sqrt eps * xi
  if h = 0 then eps else h

/-- Machine epsilon of IEEE-754 binary64 (`double`): `2^-52`. -/
def doubleEps : ℚ := 1 / 2 ^ 52

/-- The sample function of `test.cpp`: `-2.0 * x * x * x + 1.0`. -/
def testF {T : Type} [Field T] (x : T) : T := -2 * x * x * x + 1

/-- The step-size policy in the words of the specification (section 4.1):
`h = sqrt(eps) * xi`, and `h = eps` when `xi == 0`. -/
def specStep {T : Type} [Field T] [DecidableEq T] (eps : T) (sqrt : T → T) (xi : T) : T :=
  if xi = 0 then eps else sqrt eps * xi

/-- The return expression of `dfdx` (line 58) at a given step `h`. -/
def dfdxAt {T : Type} [Field T] (f : T → T) (xi h : T) : T :=
  (f (xi - 2 * h) - 8 * f (xi - h) + 8 * f (xi + h) - f (xi + 2 * h)) / (12 * h)

/-- The return expression of `d2fdx2` (line 77) at a given step `h`. -/
def d2fdx2At {T : Type} [Field T] (f : T → T) (xi h : T) : T :=
  (-f (xi - 2 * h) + 16 * f (xi - h) - 30 * f xi + 16 * f (xi + h) - f (xi + 2 * h))
    / (12 * h * h)

/-- The return expression of `d3fdx3` (line 96) at a given step `h`. -/
def d3fdx3At {T : Type} [Field T] (f : T → T) (xi h : T) : T :=
  (f (xi - 3 * h) - 8 * f (xi - 2 * h) + 13 * f (xi - h) - 13 * f (xi + h)
    + 8 * f (xi + 2 * h) - f (xi + 3 * h)) / (8 * h * h * h)

/-- The return expression of `d4fdx4` (line 115) at a given step `h`. -/
def d4fdx4At {T : Type} [Field T] (f : T → T) (xi h : T) : T :=
  (f (xi - 3 * h) + 12 * f (xi - 2 * h) - 39 * f (xi - h) + 56 * f xi + 39 * f (xi + h)
    + 12 * f (xi + 2 * h) - f (xi + 3 * h)) / (6 * h * h * h * h)

/-! ### The operations with the calls of `f` made explicit

The same four function bodies, with `std::invoke(f, x)` as an effect in a
monad `m`: the step is computed first, then `f` is invoked at each sample
point (here in the order in which the calls are written in the return
statement; C++ leaves the order of the operands unspecified), then the
samples are combined and divided. -/

/-- Body of `dfdx` with the calls of `f` as effects. -/
def dfdxM {m : Type → Type} [Monad m] {T : Type} [Field T] [DecidableEq T]
    (eps : T) (sqrt : T → T) (f : T → m T) (xi : T) : m (Option T) := do
  let h := sqrt eps * xi
  let h := if h = 0 then eps else h
  let a ← f (xi - 2 * h)
  let b ← f (xi - h)
  let c ← f (xi + h)
  let d ← f (xi + 2 * h)
  return guardedDiv (a - 8 * b + 8 * c - d) (12 * h)

/-- Body of `d2fdx2` with the calls of `f` as effects. -/
def d2fdx2M {m : Type → Type} [Monad m] {T : Type} [Field T] [DecidableEq T]
    (eps : T) (sqrt : T → T) (f : T → m T) (xi : T) : m (Option T) := do
  let h := sqrt eps * xi
  let h := if h = 0 then eps else h
  let a ← f (xi - 2 * h)
  let b ← f (xi - h)
  let c ← f xi
  let d ← f (xi + h)
  let e ← f (xi + 2 * h)
  return guardedDiv (-a + 16 * b - 30 * c + 16 * d - e) (12 * h * h)

/-- Body of `d3fdx3` with the calls of `f` as effects. -/
def d3fdx3M {m : Type → Type} [Monad m] {T : Type} [Field T] [DecidableEq T]
    (eps : T) (sqrt : T → T) (f : T → m T) (xi : T) : m (Option T) := do
  let h := sqrt eps * xi
  let h := if h = 0 then eps else h
  let a ← f (xi - 3 * h)
  let b ← f (xi - 2 * h)
  let c ← f (xi - h)
  let d ← f (xi + h)
  let e ← f (xi + 2 * h)
  let g ← f (xi + 3 * h)
  return guardedDiv (a - 8 * b + 13 * c - 13 * d + 8 * e - g) (8 * h * h * h)

/-- Body of `d4fdx4` with the calls of `f` as effects. -/
def d4fdx4M {m : Type → Type} [Monad m] {T : Type} [Field T] [DecidableEq T]
    (eps : T) (sqrt : T → T) (f : T → m T) (xi : T) : m (Option T) := do
  let h := sqrt eps * xi
  let h := if h = 0 then eps else h
  let a ← f (xi - 3 * h)
  let b ← f (xi - 2 * h)
  let c ← f (xi - h)
  let d ← f xi
  let e ← f (xi + h)
  let g ← f (xi + 2 * h)
  let k ← f (xi + 3 * h)
  return guardedDiv (a + 12 * b - 39 * c + 56 * d + 39 * e + 12 * g - k) (6 * h * h * h * h)

/-- A value together with the record of the points at which `f` was called,
in call order. -/
structure Traced (T α : Type) where
  val : α
  calls : List T

instance instMonadTraced (T : Type) : Monad (Traced T) where
  pure a := ⟨a, []⟩
  bind x k := ⟨(k x.val).val, x.calls ++ (k x.val).calls⟩

/-- One recorded call of `f` at `x`. -/
def traceCall {T : Type} (f : T → T) (x : T) : Traced T T := ⟨f x, [x]⟩

/-- The arguments of the calls of `f` in `dfdx` (line 58), at step `h`. -/
def dfdxPoints {T : Type} [Field T] (xi h : T) : List T :=
  [xi - 2 * h, xi - h, xi + h, xi + 2 * h]

/-- The arguments of the calls of `f` in `d2fdx2` (line 77), at step `h`. -/
def d2fdx2Points {T : Type} [Field T] (xi h : T) : List T :=
  [xi - 2 * h, xi - h, xi, xi + h, xi + 2 * h]

/-- The arguments of the calls of `f` in `d3fdx3` (line 96), at step `h`. -/
def d3fdx3Points {T : Type} [Field T] (xi h : T) : List T :=
  [xi - 3 * h, xi - 2 * h, xi - h, xi + h, xi + 2 * h, xi + 3 * h]

/-- The arguments of the calls of `f` in `d4fdx4` (line 115), at step `h`. -/
def d4fdx4Points {T : Type} [Field T] (xi h : T) : List T :=
  [xi - 3 * h, xi - 2 * h, xi - h, xi, xi + h, xi + 2 * h, xi + 3 * h]

/-! ## Shared lemmas -/

theorem dfdx_eq_stencil {T : Type} [Field T] [DecidableEq T] (eps : T) (sqrt : T → T)
    (f : T → T) (xi : T) :
    dfdx eps sqrt f xi =
      guardedDiv (f (xi - 2 * stepSize eps sqrt xi) - 8 * f (xi - stepSize eps sqrt xi)
        + 8 * f (xi + stepSize eps sqrt xi) - f (xi + 2 * stepSize eps sqrt xi))
        (12 * stepSize eps sqrt xi) := rfl

theorem d2fdx2_eq_stencil {T : Type} [Field T] [DecidableEq T] (eps : T) (sqrt : T → T)
    (f : T → T) (xi : T) :
    d2fdx2 eps sqrt f xi =
      guardedDiv (-f (xi - 2 * stepSize eps sqrt xi) + 16 * f (xi - stepSize eps sqrt xi)
        - 30 * f xi + 16 * f (xi + stepSize eps sqrt xi) - f (xi + 2 * stepSize eps sqrt xi))
        (12 * stepSize eps sqrt xi * stepSize eps sqrt xi) := rfl

theorem d3fdx3_eq_stencil {T : Type} [Field T] [DecidableEq T] (eps : T) (sqrt : T → T)
    (f : T → T) (xi : T) :
    d3fdx3 eps sqrt f xi =
      guardedDiv (f (xi - 3 * stepSize eps sqrt xi) - 8 * f (xi - 2 * stepSize eps sqrt xi)
        + 13 * f (xi - stepSize eps sqrt xi) - 13 * f (xi + stepSize eps sqrt xi)
        + 8 * f (xi + 2 * stepSize eps sqrt xi) - f (xi + 3 * stepSize eps sqrt xi))
        (8 * stepSize eps sqrt xi * stepSize eps sqrt xi * stepSize eps sqrt xi) := rfl

theorem d4fdx4_eq_stencil {T : Type} [Field T] [DecidableEq T] (eps : T) (sqrt : T → T)
    (f : T → T) (xi : T) :
    d4fdx4 eps sqrt f xi =
      guardedDiv (f (xi - 3 * stepSize eps sqrt xi) + 12 * f (xi - 2 * stepSize eps sqrt xi)
        - 39 * f (xi - stepSize eps sqrt xi) + 56 * f xi + 39 * f (xi + stepSize eps sqrt xi)
        + 12 * f (xi + 2 * stepSize eps sqrt xi) - f (xi + 3 * stepSize eps sqrt xi))
        (6 * stepSize eps sqrt xi * stepSize eps sqrt xi * stepSize eps sqrt xi
          * stepSize eps sqrt xi) := rfl

theorem guardedDiv_of_ne {T : Type} [Field T] [DecidableEq T] (num den : T) (hd : den ≠ 0) :
    guardedDiv num den = some (num / den) := by
  unfold guardedDiv
  rw [if_neg hd]

/-- Over the reals, with a positive epsilon, the step is never zero. -/
theorem stepSize_real_ne_zero (ε : ℝ) (hε : 0 < ε) (xi : ℝ) :
    stepSize ε Real.sqrt xi ≠ 0 := by
  unfold stepSize
  by_cases h0 : Real.sqrt ε * xi = 0
  · simp only [h0, if_true]
    exact ne_of_gt hε
  · simp only [h0, if_false]
    exact h0

/-- Over the reals, with a positive epsilon, testing `h == 0` after the
multiplication selects the same step as testing `xi == 0`. -/
theorem stepSize_real (ε : ℝ) (hε : 0 < ε) (xi : ℝ) :
    stepSize ε Real.sqrt xi = if xi = 0 then ε else Real.sqrt ε * xi := by
  unfold stepSize
  have hs : Real.sqrt ε ≠ 0 := ne_of_gt (Real.sqrt_pos.mpr hε)
  by_cases hx : xi = 0
  · simp [hx]
  · have : Real.sqrt ε * xi ≠ 0 := mul_ne_zero hs hx
    simp [hx, this]

theorem doubleEps_sqrt : Rat.sqrt doubleEps = 1 / 2 ^ 26 := by
  have h : doubleEps = (1 / 2 ^ 26 : ℚ) * (1 / 2 ^ 26) := by
    unfold doubleEps
    norm_num
  rw [h, Rat.sqrt_eq]
  exact abs_of_nonneg (by norm_num)

/-- A real polynomial of degree at most five, written out by coefficients. -/
theorem eval_natDegree_le_five (p : Polynomial ℝ) (hp : p.natDegree ≤ 5) (x : ℝ) :
    p.eval x = p.coeff 0 + p.coeff 1 * x + p.coeff 2 * x ^ 2 + p.coeff 3 * x ^ 3
      + p.coeff 4 * x ^ 4 + p.coeff 5 * x ^ 5 := by
  rw [Polynomial.eval_eq_sum_range' (Nat.lt_succ_of_le hp)]
  simp [Finset.sum_range_succ]

theorem natDegree_derivative_le_five (p : Polynomial ℝ) (hp : p.natDegree ≤ 5) :
    (Polynomial.derivative p).natDegree ≤ 5 :=
  le_trans (Polynomial.natDegree_derivative_le p) (le_trans (Nat.sub_le _ _) hp)

theorem coeff_eq_zero_of_le (p : Polynomial ℝ) (n k : ℕ) (hp : p.natDegree ≤ n) (hk : n < k) :
    p.coeff k = 0 :=
  Polynomial.coeff_eq_zero_of_natDegree_lt (lt_of_le_of_lt hp hk)

theorem eval_derivative_le_five (p : Polynomial ℝ) (hp : p.natDegree ≤ 5) (x : ℝ) :
    (Polynomial.derivative p).eval x = p.coeff 1 + 2 * p.coeff 2 * x + 3 * p.coeff 3 * x ^ 2
      + 4 * p.coeff 4 * x ^ 3 + 5 * p.coeff 5 * x ^ 4 := by
  rw [eval_natDegree_le_five _ (natDegree_derivative_le_five p hp)]
  simp only [Polynomial.coeff_derivative]
  rw [coeff_eq_zero_of_le p 5 6 hp (by norm_num)]
  push_cast
  ring

/-- Over the reals, with a positive epsilon, each operation returns its own
return expression at the step `stepSize`; the guard never fires. -/
theorem ops_real_eq_at (ε : ℝ) (hε : 0 < ε) (f : ℝ → ℝ) (xi : ℝ) :
    dfdx ε Real.sqrt f xi = some (dfdxAt f xi (stepSize ε Real.sqrt xi))
    ∧ d2fdx2 ε Real.sqrt f xi = some (d2fdx2At f xi (stepSize ε Real.sqrt xi))
    ∧ d3fdx3 ε Real.sqrt f xi = some (d3fdx3At f xi (stepSize ε Real.sqrt xi))
    ∧ d4fdx4 ε Real.sqrt f xi = some (d4fdx4At f xi (stepSize ε Real.sqrt xi)) := by
  have hh := stepSize_real_ne_zero ε hε xi
  have h12 : (12 : ℝ) * stepSize ε Real.sqrt xi ≠ 0 := mul_ne_zero (by norm_num) hh
  have h8 : (8 : ℝ) * stepSize ε Real.sqrt xi ≠ 0 := mul_ne_zero (by norm_num) hh
  have h6 : (6 : ℝ) * stepSize ε Real.sqrt xi ≠ 0 := mul_ne_zero (by norm_num) hh
  refine ⟨?_, ?_, ?_, ?_⟩
  · rw [dfdx_eq_stencil, guardedDiv_of_ne _ _ h12]
    rfl
  · rw [d2fdx2_eq_stencil, guardedDiv_of_ne _ _ (mul_ne_zero h12 hh)]
    rfl
  · rw [d3fdx3_eq_stencil, guardedDiv_of_ne _ _ (mul_ne_zero (mul_ne_zero h8 hh) hh)]
    rfl
  · rw [d4fdx4_eq_stencil,
      guardedDiv_of_ne _ _ (mul_ne_zero (mul_ne_zero (mul_ne_zero h6 hh) hh) hh)]
    rfl

/-- The executable model over the rationals with the epsilon of `double`
reproduces the example of `test.cpp`: `f'(4) = -96`. -/
theorem dfdx_double_example : dfdx doubleEps Rat.sqrt testF 4 = some (-96) := by
  unfold dfdx guardedDiv
  rw [doubleEps_sqrt]
  norm_num [testF]

/-- With no effect (`m = Id`) the bodies with explicit calls are the plain
operations. -/
theorem opsM_id {T : Type} [Field T] [DecidableEq T] (eps : T) (sqrt : T → T)
    (f : T → T) (xi : T) :
    (dfdxM eps sqrt (fun x => (pure (f x) : Id T)) xi : Id (Option T)) = dfdx eps sqrt f xi
    ∧ (d2fdx2M eps sqrt (fun x => (pure (f x) : Id T)) xi : Id (Option T))
        = d2fdx2 eps sqrt f xi
    ∧ (d3fdx3M eps sqrt (fun x => (pure (f x) : Id T)) xi : Id (Option T))
        = d3fdx3 eps sqrt f xi
    ∧ (d4fdx4M eps sqrt (fun x => (pure (f x) : Id T)) xi : Id (Option T))
        = d4fdx4 eps sqrt f xi :=
  ⟨rfl, rfl, rfl, rfl⟩

/-- A traced run returns the value of the plain operation. -/
theorem opsM_traced_val {T : Type} [Field T] [DecidableEq T] (eps : T) (sqrt : T → T)
    (f : T → T) (xi : T) :
    (dfdxM eps sqrt (traceCall f) xi).val = dfdx eps sqrt f xi
    ∧ (d2fdx2M eps sqrt (traceCall f) xi).val = d2fdx2 eps sqrt f xi
    ∧ (d3fdx3M eps sqrt (traceCall f) xi).val = d3fdx3 eps sqrt f xi
    ∧ (d4fdx4M eps sqrt (traceCall f) xi).val = d4fdx4 eps sqrt f xi :=
  ⟨rfl, rfl, rfl, rfl⟩

/-- A traced run records exactly the sample points of the operation. -/
theorem opsM_traced_calls {T : Type} [Field T] [DecidableEq T] (eps : T) (sqrt : T → T)
    (f : T → T) (xi : T) :
    (dfdxM eps sqrt (traceCall f) xi).calls = dfdxPoints xi (stepSize eps sqrt xi)
    ∧ (d2fdx2M eps sqrt (traceCall f) xi).calls = d2fdx2Points xi (stepSize eps sqrt xi)
    ∧ (d3fdx3M eps sqrt (traceCall f) xi).calls = d3fdx3Points xi (stepSize eps sqrt xi)
    ∧ (d4fdx4M eps sqrt (traceCall f) xi).calls = d4fdx4Points xi (stepSize eps sqrt xi) :=
  ⟨rfl, rfl, rfl, rfl⟩

/-- Faults of `f` in `dfdx`: a fault of the operation is a fault of `f` at one
of its sample points, a fault of `f` at a sample point makes the operation
fault, and without such a fault the operation returns a value. -/
theorem dfdxM_faults {E : Type} (ε : ℝ) (hε : 0 < ε) (f : ℝ → Except E ℝ) (xi : ℝ) :
    (∀ e, dfdxM ε Real.sqrt f xi = Except.error e →
        ∃ p ∈ dfdxPoints xi (stepSize ε Real.sqrt xi), f p = Except.error e)
    ∧ ((∃ p ∈ dfdxPoints xi (stepSize ε Real.sqrt xi), ∃ e, f p = Except.error e) →
        ∃ e, dfdxM ε Real.sqrt f xi = Except.error e)
    ∧ ((∀ p ∈ dfdxPoints xi (stepSize ε Real.sqrt xi), ∃ v, f p = Except.ok v) →
        ∃ v, dfdxM ε Real.sqrt f xi = Except.ok (some v)) := by
  have hh := stepSize_real_ne_zero ε hε xi
  have hd : (12 : ℝ) * stepSize ε Real.sqrt xi ≠ 0 :=
    mul_ne_zero (by norm_num) hh
  have hdef : dfdxM ε Real.sqrt f xi =
      (f (xi - 2 * stepSize ε Real.sqrt xi) >>= fun a =>
      f (xi - stepSize ε Real.sqrt xi) >>= fun b =>
      f (xi + stepSize ε Real.sqrt xi) >>= fun c =>
      f (xi + 2 * stepSize ε Real.sqrt xi) >>= fun d =>
      pure (guardedDiv (a - 8 * b + 8 * c - d) (12 * stepSize ε Real.sqrt xi))) := rfl
  rw [hdef]
  generalize stepSize ε Real.sqrt xi = h at hd
  simp only [dfdxPoints, List.mem_cons, List.not_mem_nil, or_false, exists_eq_or_imp,
    forall_eq_or_imp, exists_eq_left, forall_eq]
  cases h1 : f (xi - 2 * h) <;> cases h2 : f (xi - h) <;> cases h3 : f (xi + h)
    <;> cases h4 : f (xi + 2 * h)
    <;> simp [bind, Except.bind, pure, Except.pure, guardedDiv_of_ne _ _ hd]

/-- Faults of `f` in `d2fdx2`: a fault of the operation is a fault of `f` at one
of its sample points, a fault of `f` at a sample point makes the operation
fault, and without such a fault the operation returns a value. -/
theorem d2fdx2M_faults {E : Type} (ε : ℝ) (hε : 0 < ε) (f : ℝ → Except E ℝ) (xi : ℝ) :
    (∀ e, d2fdx2M ε Real.sqrt f xi = Except.error e →
        ∃ p ∈ d2fdx2Points xi (stepSize ε Real.sqrt xi), f p = Except.error e)
    ∧ ((∃ p ∈ d2fdx2Points xi (stepSize ε Real.sqrt xi), ∃ e, f p = Except.error e) →
        ∃ e, d2fdx2M ε Real.sqrt f xi = Except.error e)
    ∧ ((∀ p ∈ d2fdx2Points xi (stepSize ε Real.sqrt xi), ∃ v, f p = Except.ok v) →
        ∃ v, d2fdx2M ε Real.sqrt f xi = Except.ok (some v)) := by
  have hh := stepSize_real_ne_zero ε hε xi
  have hd : (12 : ℝ) * stepSize ε Real.sqrt xi * stepSize ε Real.sqrt xi ≠ 0 :=
    mul_ne_zero (mul_ne_zero (by norm_num) hh) hh
  have hdef : d2fdx2M ε Real.sqrt f xi =
      (f (xi - 2 * stepSize ε Real.sqrt xi) >>= fun a =>
      f (xi - stepSize ε Real.sqrt xi) >>= fun b =>
      f xi >>= fun c =>
      f (xi + stepSize ε Real.sqrt xi) >>= fun d =>
      f (xi + 2 * stepSize ε Real.sqrt xi) >>= fun e =>
      pure (guardedDiv (-a + 16 * b - 30 * c + 16 * d - e)
        (12 * stepSize ε Real.sqrt xi * stepSize ε Real.sqrt xi))) := rfl
  rw [hdef]
  generalize stepSize ε Real.sqrt xi = h at hd
  simp only [d2fdx2Points, List.mem_cons, List.not_mem_nil, or_false, exists_eq_or_imp,
    forall_eq_or_imp, exists_eq_left, forall_eq]
  cases h1 : f (xi - 2 * h) <;> cases h2 : f (xi - h) <;> cases h3 : f xi
    <;> cases h4 : f (xi + h) <;> cases h5 : f (xi + 2 * h)
    <;> simp [bind, Except.bind, pure, Except.pure, guardedDiv_of_ne _ _ hd]

/-- Faults of `f` in `d3fdx3`: a fault of the operation is a fault of `f` at one
of its sample points, a fault of `f` at a sample point makes the operation
fault, and without such a fault the operation returns a value. -/
theorem d3fdx3M_faults {E : Type} (ε : ℝ) (hε : 0 < ε) (f : ℝ → Except E ℝ) (xi : ℝ) :
    (∀ e, d3fdx3M ε Real.sqrt f xi = Except.error e →
        ∃ p ∈ d3fdx3Points xi (stepSize ε Real.sqrt xi), f p = Except.error e)
    ∧ ((∃ p ∈ d3fdx3Points xi (stepSize ε Real.sqrt xi), ∃ e, f p = Except.error e) →
        ∃ e, d3fdx3M ε Real.sqrt f xi = Except.error e)
    ∧ ((∀ p ∈ d3fdx3Points xi (stepSize ε Real.sqrt xi), ∃ v, f p = Except.ok v) →
        ∃ v, d3fdx3M ε Real.sqrt f xi = Except.ok (some v)) := by
  have hh := stepSize_real_ne_zero ε hε xi
  have hd : (8 : ℝ) * stepSize ε Real.sqrt xi * stepSize ε Real.sqrt xi
      * stepSize ε Real.sqrt xi ≠ 0 :=
    mul_ne_zero (mul_ne_zero (mul_ne_zero (by norm_num) hh) hh) hh
  have hdef : d3fdx3M ε Real.sqrt f xi =
      (f (xi - 3 * stepSize ε Real.sqrt xi) >>= fun a =>
      f (xi - 2 * stepSize ε Real.sqrt xi) >>= fun b =>
      f (xi - stepSize ε Real.sqrt xi) >>= fun c =>
      f (xi + stepSize ε Real.sqrt xi) >>= fun d =>
      f (xi + 2 * stepSize ε Real.sqrt xi) >>= fun e =>
      f (xi + 3 * stepSize ε Real.sqrt xi) >>= fun g =>
      pure (guardedDiv (a - 8 * b + 13 * c - 13 * d + 8 * e - g)
        (8 * stepSize ε Real.sqrt xi * stepSize ε Real.sqrt xi * stepSize ε Real.sqrt xi))) := rfl
  rw [hdef]
  generalize stepSize ε Real.sqrt xi = h at hd
  simp only [d3fdx3Points, List.mem_cons, List.not_mem_nil, or_false, exists_eq_or_imp,
    forall_eq_or_imp, exists_eq_left, forall_eq]
  cases h1 : f (xi - 3 * h) <;> cases h2 : f (xi - 2 * h) <;> cases h3 : f (xi - h)
    <;> cases h4 : f (xi + h) <;> cases h5 : f (xi + 2 * h) <;> cases h6 : f (xi + 3 * h)
    <;> simp [bind, Except.bind, pure, Except.pure, guardedDiv_of_ne _ _ hd]

/-- Faults of `f` in `d4fdx4`: a fault of the operation is a fault of `f` at one
of its sample points, a fault of `f` at a sample point makes the operation
fault, and without such a fault the operation returns a value. -/
theorem d4fdx4M_faults {E : Type} (ε : ℝ) (hε : 0 < ε) (f : ℝ → Except E ℝ) (xi : ℝ) :
    (∀ e, d4fdx4M ε Real.sqrt f xi = Except.error e →
        ∃ p ∈ d4fdx4Points xi (stepSize ε Real.sqrt xi), f p = Except.error e)
    ∧ ((∃ p ∈ d4fdx4Points xi (stepSize ε Real.sqrt xi), ∃ e, f p = Except.error e) →
        ∃ e, d4fdx4M ε Real.sqrt f xi = Except.error e)
    ∧ ((∀ p ∈ d4fdx4Points xi (stepSize ε Real.sqrt xi), ∃ v, f p = Except.ok v) →
        ∃ v, d4fdx4M ε Real.sqrt f xi = Except.ok (some v)) := by
  have hh := stepSize_real_ne_zero ε hε xi
  have hd : (6 : ℝ) * stepSize ε Real.sqrt xi * stepSize ε Real.sqrt xi
      * stepSize ε Real.sqrt xi * stepSize ε Real.sqrt xi ≠ 0 :=
    mul_ne_zero (mul_ne_zero (mul_ne_zero (mul_ne_zero (by norm_num) hh) hh) hh) hh
  have hdef : d4fdx4M ε Real.sqrt f xi =
      (f (xi - 3 * stepSize ε Real.sqrt xi) >>= fun a =>
      f (xi - 2 * stepSize ε Real.sqrt xi) >>= fun b =>
      f (xi - stepSize ε Real.sqrt xi) >>= fun c =>
      f xi >>= fun d =>
      f (xi + stepSize ε Real.sqrt xi) >>= fun e =>
      f (xi + 2 * stepSize ε Real.sqrt xi) >>= fun g =>
      f (xi + 3 * stepSize ε Real.sqrt xi) >>= fun k =>
      pure (guardedDiv (a + 12 * b - 39 * c + 56 * d + 39 * e + 12 * g - k)
        (6 * stepSize ε Real.sqrt xi * stepSize ε Real.sqrt xi
          * stepSize ε Real.sqrt xi * stepSize ε Real.sqrt xi))) := rfl
  rw [hdef]
  generalize stepSize ε Real.sqrt xi = h at hd
  simp only [d4fdx4Points, List.mem_cons, List.not_mem_nil, or_false, exists_eq_or_imp,
    forall_eq_or_imp, exists_eq_left, forall_eq]
  cases h1 : f (xi - 3 * h) <;> cases h2 : f (xi - 2 * h) <;> cases h3 : f (xi - h)
    <;> cases h4 : f xi <;> cases h5 : f (xi + h) <;> cases h6 : f (xi + 2 * h)
    <;> cases h7 : f (xi + 3 * h)
    <;> simp [bind, Except.bind, pure, Except.pure, guardedDiv_of_ne _ _ hd]

/-! ## The claims -/

/-- C1: in exact real arithmetic, with any positive machine epsilon, `dfdx`
returns exactly the analytic derivative of every polynomial of degree at most 4,
at every evaluation point. -/
theorem dfdx_exact_on_quartics (ε : ℝ) (hε : 0 < ε) (p : Polynomial ℝ)
    (hp : p.natDegree ≤ 4) (xi : ℝ) :
    dfdx ε Real.sqrt (fun x => p.eval x) xi = some (deriv (fun x => p.eval x) xi) := by
  have hp5 : p.natDegree ≤ 5 := le_trans hp (by norm_num)
  have hh := stepSize_real_ne_zero ε hε xi
  rw [dfdx_eq_stencil, Polynomial.deriv]
  generalize stepSize ε Real.sqrt xi = h at hh
  rw [guardedDiv_of_ne _ _ (mul_ne_zero (by norm_num) hh)]
  simp only [eval_natDegree_le_five p hp5, eval_derivative_le_five p hp5,
    coeff_eq_zero_of_le p 4 5 hp (by norm_num)]
  congr 1
  field_simp
  ring

/-- The example of `test.cpp`: `f(x) = -2x^3 + 1` at `xi = 4` gives exactly `-96`. -/
theorem dfdx_exact_on_quartics_witness :
    0 < (1 / 2 ^ 52 : ℝ)
    ∧ (Polynomial.C (-2) * Polynomial.X ^ 3 + Polynomial.C 1 : Polynomial ℝ).natDegree ≤ 4
    ∧ dfdx (1 / 2 ^ 52 : ℝ) Real.sqrt testF 4 = some (-96) := by
  have hdeg : (Polynomial.C (-2) * Polynomial.X ^ 3 + Polynomial.C 1 :
      Polynomial ℝ).natDegree ≤ 4 := by
    compute_degree
    norm_num
  refine ⟨by norm_num, hdeg, ?_⟩
  have h := dfdx_exact_on_quartics (1 / 2 ^ 52) (by norm_num) _ hdeg 4
  have hf : (fun x : ℝ =>
      (Polynomial.C (-2) * Polynomial.X ^ 3 + Polynomial.C 1 : Polynomial ℝ).eval x)
      = testF := by
    funext x
    simp only [testF, Polynomial.eval_add, Polynomial.eval_mul, Polynomial.eval_C,
      Polynomial.eval_pow, Polynomial.eval_X]
    ring
  rw [Polynomial.deriv, hf] at h
  rw [h]
  simp
  norm_num

/-- C4 (evaluation at the failing inputs): with the epsilon of `double`,
`d4fdx4` of the constant function `1` at `xi = 4` is `80 / (6 h^4)` with
`h = 2^-24`, not the fourth derivative `0`; and `d4fdx4` of `x^4` at `xi = 0`
is `64`, not the fourth derivative `24`. -/
theorem d4fdx4_wrong_on_monomials :
    d4fdx4 doubleEps Rat.sqrt (fun _ => (1 : ℚ)) 4 = some (80 / (6 * (1 / 2 ^ 24) ^ 4))
    ∧ d4fdx4 doubleEps Rat.sqrt (fun _ => (1 : ℚ)) 4 ≠ some 0
    ∧ d4fdx4 doubleEps Rat.sqrt (fun x : ℚ => 1 * x ^ 4) 0 = some 64
    ∧ d4fdx4 doubleEps Rat.sqrt (fun x : ℚ => 1 * x ^ 4) 0 ≠ some 24 := by
  have h1 : d4fdx4 doubleEps Rat.sqrt (fun _ => (1 : ℚ)) 4
      = some (80 / (6 * (1 / 2 ^ 24) ^ 4)) := by
    unfold d4fdx4 guardedDiv
    rw [doubleEps_sqrt]
    norm_num
  have h2 : d4fdx4 doubleEps Rat.sqrt (fun x : ℚ => 1 * x ^ 4) 0 = some 64 := by
    unfold d4fdx4 guardedDiv
    rw [doubleEps_sqrt]
    norm_num [doubleEps]
  refine ⟨h1, ?_, h2, ?_⟩
  · rw [h1]
    norm_num
  · rw [h2]
    norm_num

/-- C5: for every function and every point, `d4fdx4` returns exactly
`(f(xi-3h) + 12 f(xi-2h) - 39 f(xi-h) + 56 f(xi) + 39 f(xi+h) + 12 f(xi+2h)
- f(xi+3h)) / (6 h^4)`, where `h` is the step of the specified policy. -/
theorem d4fdx4_formula (ε : ℝ) (hε : 0 < ε) (f : ℝ → ℝ) (xi : ℝ) :
    d4fdx4 ε Real.sqrt f xi =
      some ((f (xi - 3 * specStep ε Real.sqrt xi) + 12 * f (xi - 2 * specStep ε Real.sqrt xi)
        - 39 * f (xi - specStep ε Real.sqrt xi) + 56 * f xi
        + 39 * f (xi + specStep ε Real.sqrt xi) + 12 * f (xi + 2 * specStep ε Real.sqrt xi)
        - f (xi + 3 * specStep ε Real.sqrt xi)) / (6 * specStep ε Real.sqrt xi ^ 4)) := by
  have hs : specStep ε Real.sqrt xi = stepSize ε Real.sqrt xi := (stepSize_real ε hε xi).symm
  rw [(ops_real_eq_at ε hε f xi).2.2.2, hs]
  unfold d4fdx4At
  congr 2
  ring

theorem d4fdx4_formula_witness :
    0 < (1 / 2 ^ 52 : ℝ)
    ∧ d4fdx4 (1 / 2 ^ 52 : ℝ) Real.sqrt (fun x => x) 0 = some (72 / (6 * (1 / 2 ^ 52) ^ 3)) := by
  refine ⟨by norm_num, ?_⟩
  rw [d4fdx4_formula (1 / 2 ^ 52) (by norm_num) (fun x => x) 0]
  simp only [specStep, if_true]
  congr 1
  field_simp
  ring

/-- C6: the step-size policy is the same in all four operations: with a
positive epsilon the step is `sqrt ε * xi` for `xi ≠ 0` and `ε` for `xi = 0`
(testing `h == 0` after the multiplication selects the same step as testing
`xi == 0`), and at `xi = 0` every operation returns its stencil formula
evaluated with `h = ε`. -/
theorem step_policy (ε : ℝ) (hε : 0 < ε) (f : ℝ → ℝ) (xi : ℝ) :
    (xi ≠ 0 → stepSize ε Real.sqrt xi = Real.sqrt ε * xi)
    ∧ stepSize ε Real.sqrt 0 = ε
    ∧ dfdx ε Real.sqrt f xi = some (dfdxAt f xi (specStep ε Real.sqrt xi))
    ∧ d2fdx2 ε Real.sqrt f xi = some (d2fdx2At f xi (specStep ε Real.sqrt xi))
    ∧ d3fdx3 ε Real.sqrt f xi = some (d3fdx3At f xi (specStep ε Real.sqrt xi))
    ∧ d4fdx4 ε Real.sqrt f xi = some (d4fdx4At f xi (specStep ε Real.sqrt xi))
    ∧ dfdx ε Real.sqrt f 0 = some (dfdxAt f 0 ε)
    ∧ d2fdx2 ε Real.sqrt f 0 = some (d2fdx2At f 0 ε)
    ∧ d3fdx3 ε Real.sqrt f 0 = some (d3fdx3At f 0 ε)
    ∧ d4fdx4 ε Real.sqrt f 0 = some (d4fdx4At f 0 ε) := by
  have hs : ∀ x : ℝ, stepSize ε Real.sqrt x = specStep ε Real.sqrt x := fun x =>
    stepSize_real ε hε x
  have h0 : stepSize ε Real.sqrt 0 = ε := by
    rw [stepSize_real ε hε 0, if_pos rfl]
  obtain ⟨a1, a2, a3, a4⟩ := ops_real_eq_at ε hε f xi
  obtain ⟨b1, b2, b3, b4⟩ := ops_real_eq_at ε hε f 0
  rw [hs xi] at a1 a2 a3 a4
  rw [h0] at b1 b2 b3 b4
  refine ⟨?_, h0, a1, a2, a3, a4, b1, b2, b3, b4⟩
  intro hx
  rw [stepSize_real ε hε xi, if_neg hx]

theorem step_policy_witness :
    0 < (1 / 2 ^ 52 : ℝ) ∧ (4 : ℝ) ≠ 0
    ∧ stepSize (1 / 2 ^ 52 : ℝ) Real.sqrt 4 = Real.sqrt (1 / 2 ^ 52) * 4
    ∧ stepSize (1 / 2 ^ 52 : ℝ) Real.sqrt 0 = 1 / 2 ^ 52
    ∧ dfdx (1 / 2 ^ 52 : ℝ) Real.sqrt testF 0 = some (dfdxAt testF 0 (1 / 2 ^ 52)) :=
  have h := step_policy (1 / 2 ^ 52) (by norm_num) testF 4
  ⟨by norm_num, by norm_num, h.1 (by norm_num), h.2.1, h.2.2.2.2.2.2.1⟩

/-- C8: the first-derivative stencil has truncation error of order `h^4`:
for `f(x) = x^5`, at every point, `dfdx` returns a value `v` with
`v - 5 xi^4 = -4 h^4`, `h` the step derived from `xi`. -/
theorem dfdx_quintic_error (ε : ℝ) (hε : 0 < ε) (xi : ℝ) :
    ∃ v : ℝ, dfdx ε Real.sqrt (fun x => x ^ 5) xi = some v
      ∧ v - 5 * xi ^ 4 = -4 * specStep ε Real.sqrt xi ^ 4 := by
  have hh := stepSize_real_ne_zero ε hε xi
  have hs : specStep ε Real.sqrt xi = stepSize ε Real.sqrt xi := (stepSize_real ε hε xi).symm
  rw [hs]
  refine ⟨_, (ops_real_eq_at ε hε _ xi).1, ?_⟩
  generalize stepSize ε Real.sqrt xi = h at hh
  unfold dfdxAt
  field_simp
  ring

theorem dfdx_quintic_error_witness :
    0 < (1 / 2 ^ 52 : ℝ)
    ∧ ∃ v : ℝ, dfdx (1 / 2 ^ 52 : ℝ) Real.sqrt (fun x => x ^ 5) 0 = some v
      ∧ v - 5 * 0 ^ 4 = -4 * specStep (1 / 2 ^ 52 : ℝ) Real.sqrt 0 ^ 4 :=
  ⟨by norm_num, dfdx_quintic_error (1 / 2 ^ 52) (by norm_num) 0⟩

/-- C9: symmetry. For every even function, with a positive epsilon, both
`dfdx` and `d3fdx3` at `xi = 0` return exactly zero. -/
theorem odd_stencils_vanish_on_even (ε : ℝ) (hε : 0 < ε) (f : ℝ → ℝ)
    (hf : ∀ x, f (-x) = f x) :
    dfdx ε Real.sqrt f 0 = some 0 ∧ d3fdx3 ε Real.sqrt f 0 = some 0 := by
  have h0 : stepSize ε Real.sqrt 0 = ε := by
    rw [stepSize_real ε hε 0, if_pos rfl]
  obtain ⟨a1, -, a3, -⟩ := ops_real_eq_at ε hε f 0
  rw [h0] at a1 a3
  have e1 : f (0 - ε) = f (0 + ε) := by
    rw [← hf (0 + ε)]
    congr 1
    ring
  have e2 : f (0 - 2 * ε) = f (0 + 2 * ε) := by
    rw [← hf (0 + 2 * ε)]
    congr 1
    ring
  have e3 : f (0 - 3 * ε) = f (0 + 3 * ε) := by
    rw [← hf (0 + 3 * ε)]
    congr 1
    ring
  constructor
  · rw [a1]
    unfold dfdxAt
    rw [e1, e2]
    congr 1
    rw [div_eq_zero_iff]
    left
    ring
  · rw [a3]
    unfold d3fdx3At
    rw [e1, e2, e3]
    congr 1
    rw [div_eq_zero_iff]
    left
    ring

theorem odd_stencils_vanish_on_even_witness :
    0 < (1 / 2 ^ 52 : ℝ) ∧ (∀ x : ℝ, (-x) ^ 2 = x ^ 2)
    ∧ dfdx (1 / 2 ^ 52 : ℝ) Real.sqrt (fun x => x ^ 2) 0 = some 0
    ∧ d3fdx3 (1 / 2 ^ 52 : ℝ) Real.sqrt (fun x => x ^ 2) 0 = some 0 :=
  ⟨by norm_num, fun x => neg_sq x,
    odd_stencils_vanish_on_even (1 / 2 ^ 52) (by norm_num) (fun x => x ^ 2)
      (fun x => neg_sq x)⟩

/-- C10: scale invariance on linear functions. With a positive epsilon, for
every coefficient `a` and every point (any magnitude, either sign, zero),
`dfdx` of `f(x) = a * x` returns exactly `a`. -/
theorem dfdx_linear (ε : ℝ) (hε : 0 < ε) (a xi : ℝ) :
    dfdx ε Real.sqrt (fun x => a * x) xi = some a := by
  have hh := stepSize_real_ne_zero ε hε xi
  rw [(ops_real_eq_at ε hε _ xi).1]
  generalize stepSize ε Real.sqrt xi = h at hh
  unfold dfdxAt
  congr 1
  field_simp
  ring

theorem dfdx_linear_witness :
    0 < (1 / 2 ^ 52 : ℝ)
    ∧ dfdx (1 / 2 ^ 52 : ℝ) Real.sqrt (fun x => 3 * x) (1 / 1000) = some 3
    ∧ dfdx (1 / 2 ^ 52 : ℝ) Real.sqrt (fun x => 3 * x) (-1000) = some 3
    ∧ dfdx (1 / 2 ^ 52 : ℝ) Real.sqrt (fun x => 3 * x) 0 = some 3 :=
  ⟨by norm_num, dfdx_linear (1 / 2 ^ 52) (by norm_num) 3 (1 / 1000),
    dfdx_linear (1 / 2 ^ 52) (by norm_num) 3 (-1000),
    dfdx_linear (1 / 2 ^ 52) (by norm_num) 3 0⟩

/-- C11: scale covariance. With a positive epsilon, for every function `f`,
every `c ≠ 0` and every `xi ≠ 0`, the step scales with the point
(`h(c * xi) = c * h(xi)`) and, with `g(x) = f(x / c)`, the operation of order
`k` satisfies `D_k(g, c * xi) = D_k(f, xi) / c ^ k` for `k = 1, 2, 3, 4`. -/
theorem scale_covariance (ε : ℝ) (hε : 0 < ε) (f : ℝ → ℝ) (c xi : ℝ)
    (hc : c ≠ 0) (hxi : xi ≠ 0) :
    stepSize ε Real.sqrt (c * xi) = c * stepSize ε Real.sqrt xi
    ∧ dfdx ε Real.sqrt (fun x => f (x / c)) (c * xi)
        = (dfdx ε Real.sqrt f xi).map (fun v => v / c)
    ∧ d2fdx2 ε Real.sqrt (fun x => f (x / c)) (c * xi)
        = (d2fdx2 ε Real.sqrt f xi).map (fun v => v / c ^ 2)
    ∧ d3fdx3 ε Real.sqrt (fun x => f (x / c)) (c * xi)
        = (d3fdx3 ε Real.sqrt f xi).map (fun v => v / c ^ 3)
    ∧ d4fdx4 ε Real.sqrt (fun x => f (x / c)) (c * xi)
        = (d4fdx4 ε Real.sqrt f xi).map (fun v => v / c ^ 4) := by
  have hstep : stepSize ε Real.sqrt (c * xi) = c * stepSize ε Real.sqrt xi := by
    rw [stepSize_real ε hε (c * xi), stepSize_real ε hε xi, if_neg (mul_ne_zero hc hxi),
      if_neg hxi]
    ring
  have hh := stepSize_real_ne_zero ε hε xi
  obtain ⟨a1, a2, a3, a4⟩ := ops_real_eq_at ε hε f xi
  obtain ⟨b1, b2, b3, b4⟩ := ops_real_eq_at ε hε (fun x => f (x / c)) (c * xi)
  rw [a1, a2, a3, a4, b1, b2, b3, b4, hstep]
  generalize stepSize ε Real.sqrt xi = h at hh
  have e0 : c * xi / c = xi := by field_simp
  have m1 : (c * xi - c * h) / c = xi - h := by
    field_simp
    ring
  have m2 : (c * xi - 2 * (c * h)) / c = xi - 2 * h := by
    field_simp
    ring
  have m3 : (c * xi - 3 * (c * h)) / c = xi - 3 * h := by
    field_simp
    ring
  have p1 : (c * xi + c * h) / c = xi + h := by
    field_simp
    ring
  have p2 : (c * xi + 2 * (c * h)) / c = xi + 2 * h := by
    field_simp
    ring
  have p3 : (c * xi + 3 * (c * h)) / c = xi + 3 * h := by
    field_simp
    ring
  refine ⟨rfl, ?_, ?_, ?_, ?_⟩
  · simp only [Option.map_some', dfdxAt, m1, m2, p1, p2]
    rw [div_div]
    congr 2
    ring
  · simp only [Option.map_some', d2fdx2At, e0, m1, m2, p1, p2]
    rw [div_div]
    congr 2
    ring
  · simp only [Option.map_some', d3fdx3At, m1, m2, m3, p1, p2, p3]
    rw [div_div]
    congr 2
    ring
  · simp only [Option.map_some', d4fdx4At, e0, m1, m2, m3, p1, p2, p3]
    rw [div_div]
    congr 2
    ring

theorem scale_covariance_witness :
    0 < (1 / 2 ^ 52 : ℝ) ∧ (1000 : ℝ) ≠ 0 ∧ (4 : ℝ) ≠ 0
    ∧ stepSize (1 / 2 ^ 52 : ℝ) Real.sqrt (1000 * 4)
        = 1000 * stepSize (1 / 2 ^ 52 : ℝ) Real.sqrt 4
    ∧ d4fdx4 (1 / 2 ^ 52 : ℝ) Real.sqrt (fun x => testF (x / 1000)) (1000 * 4)
        = (d4fdx4 (1 / 2 ^ 52 : ℝ) Real.sqrt testF 4).map (fun v => v / 1000 ^ 4) :=
  have h := scale_covariance (1 / 2 ^ 52) (by norm_num) testF 1000 4 (by norm_num)
    (by norm_num)
  ⟨by norm_num, by norm_num, by norm_num, h.1, h.2.2.2.2⟩

/-- C12: evaluation set and count. Recording each call of `f`, with a
positive epsilon and `h` the step derived from `xi`: `dfdx` calls `f` exactly
4 times, at `xi-2h, xi-h, xi+h, xi+2h`, never at `xi`; `d2fdx2` exactly 5
times, at `xi-2h, xi-h, xi, xi+h, xi+2h`; `d3fdx3` exactly 6 times, at
`xi-3h, xi-2h, xi-h, xi+h, xi+2h, xi+3h`, never at `xi`; `d4fdx4` exactly 7
times, at `xi-3h, xi-2h, xi-h, xi, xi+h, xi+2h, xi+3h`. Two functions that
agree on the recorded points of an operation get the same result from it. -/
theorem evaluation_points (ε : ℝ) (hε : 0 < ε) (f g : ℝ → ℝ) (xi : ℝ) :
    ∃ h : ℝ, h = stepSize ε Real.sqrt xi
    ∧ ((dfdxM ε Real.sqrt (traceCall f) xi).calls = [xi - 2 * h, xi - h, xi + h, xi + 2 * h]
      ∧ (dfdxM ε Real.sqrt (traceCall f) xi).calls.length = 4
      ∧ xi ∉ (dfdxM ε Real.sqrt (traceCall f) xi).calls
      ∧ ((∀ p ∈ (dfdxM ε Real.sqrt (traceCall f) xi).calls, f p = g p) →
          dfdx ε Real.sqrt f xi = dfdx ε Real.sqrt g xi))
    ∧ ((d2fdx2M ε Real.sqrt (traceCall f) xi).calls
          = [xi - 2 * h, xi - h, xi, xi + h, xi + 2 * h]
      ∧ (d2fdx2M ε Real.sqrt (traceCall f) xi).calls.length = 5
      ∧ ((∀ p ∈ (d2fdx2M ε Real.sqrt (traceCall f) xi).calls, f p = g p) →
          d2fdx2 ε Real.sqrt f xi = d2fdx2 ε Real.sqrt g xi))
    ∧ ((d3fdx3M ε Real.sqrt (traceCall f) xi).calls
          = [xi - 3 * h, xi - 2 * h, xi - h, xi + h, xi + 2 * h, xi + 3 * h]
      ∧ (d3fdx3M ε Real.sqrt (traceCall f) xi).calls.length = 6
      ∧ xi ∉ (d3fdx3M ε Real.sqrt (traceCall f) xi).calls
      ∧ ((∀ p ∈ (d3fdx3M ε Real.sqrt (traceCall f) xi).calls, f p = g p) →
          d3fdx3 ε Real.sqrt f xi = d3fdx3 ε Real.sqrt g xi))
    ∧ ((d4fdx4M ε Real.sqrt (traceCall f) xi).calls
          = [xi - 3 * h, xi - 2 * h, xi - h, xi, xi + h, xi + 2 * h, xi + 3 * h]
      ∧ (d4fdx4M ε Real.sqrt (traceCall f) xi).calls.length = 7
      ∧ ((∀ p ∈ (d4fdx4M ε Real.sqrt (traceCall f) xi).calls, f p = g p) →
          d4fdx4 ε Real.sqrt f xi = d4fdx4 ε Real.sqrt g xi)) := by
  have hh := stepSize_real_ne_zero ε hε xi
  obtain ⟨c1, c2, c3, c4⟩ := opsM_traced_calls ε Real.sqrt f xi
  refine ⟨stepSize ε Real.sqrt xi, rfl, ⟨c1, ?_, ?_, ?_⟩, ⟨c2, ?_, ?_⟩, ⟨c3, ?_, ?_, ?_⟩,
    ⟨c4, ?_, ?_⟩⟩
  · rw [c1]
    rfl
  · rw [c1]
    generalize stepSize ε Real.sqrt xi = h at hh
    simp only [dfdxPoints, List.mem_cons, List.not_mem_nil, or_false, not_or]
    refine ⟨?_, ?_, ?_, ?_⟩ <;> intro e <;> apply hh <;> linarith
  · intro hfg
    rw [c1] at hfg
    rw [dfdx_eq_stencil, dfdx_eq_stencil,
      hfg _ (by simp [dfdxPoints]), hfg (xi - stepSize ε Real.sqrt xi) (by simp [dfdxPoints]),
      hfg (xi + stepSize ε Real.sqrt xi) (by simp [dfdxPoints]),
      hfg (xi + 2 * stepSize ε Real.sqrt xi) (by simp [dfdxPoints])]
  · rw [c2]
    rfl
  · intro hfg
    rw [c2] at hfg
    rw [d2fdx2_eq_stencil, d2fdx2_eq_stencil,
      hfg (xi - 2 * stepSize ε Real.sqrt xi) (by simp [d2fdx2Points]),
      hfg (xi - stepSize ε Real.sqrt xi) (by simp [d2fdx2Points]),
      hfg xi (by simp [d2fdx2Points]),
      hfg (xi + stepSize ε Real.sqrt xi) (by simp [d2fdx2Points]),
      hfg (xi + 2 * stepSize ε Real.sqrt xi) (by simp [d2fdx2Points])]
  · rw [c3]
    rfl
  · rw [c3]
    generalize stepSize ε Real.sqrt xi = h at hh
    simp only [d3fdx3Points, List.mem_cons, List.not_mem_nil, or_false, not_or]
    refine ⟨?_, ?_, ?_, ?_, ?_, ?_⟩ <;> intro e <;> apply hh <;> linarith
  · intro hfg
    rw [c3] at hfg
    rw [d3fdx3_eq_stencil, d3fdx3_eq_stencil,
      hfg (xi - 3 * stepSize ε Real.sqrt xi) (by simp [d3fdx3Points]),
      hfg (xi - 2 * stepSize ε Real.sqrt xi) (by simp [d3fdx3Points]),
      hfg (xi - stepSize ε Real.sqrt xi) (by simp [d3fdx3Points]),
      hfg (xi + stepSize ε Real.sqrt xi) (by simp [d3fdx3Points]),
      hfg (xi + 2 * stepSize ε Real.sqrt xi) (by simp [d3fdx3Points]),
      hfg (xi + 3 * stepSize ε Real.sqrt xi) (by simp [d3fdx3Points])]
  · rw [c4]
    rfl
  · intro hfg
    rw [c4] at hfg
    rw [d4fdx4_eq_stencil, d4fdx4_eq_stencil,
      hfg (xi - 3 * stepSize ε Real.sqrt xi) (by simp [d4fdx4Points]),
      hfg (xi - 2 * stepSize ε Real.sqrt xi) (by simp [d4fdx4Points]),
      hfg (xi - stepSize ε Real.sqrt xi) (by simp [d4fdx4Points]),
      hfg xi (by simp [d4fdx4Points]),
      hfg (xi + stepSize ε Real.sqrt xi) (by simp [d4fdx4Points]),
      hfg (xi + 2 * stepSize ε Real.sqrt xi) (by simp [d4fdx4Points]),
      hfg (xi + 3 * stepSize ε Real.sqrt xi) (by simp [d4fdx4Points])]

theorem evaluation_points_witness :
    0 < (1 / 2 ^ 52 : ℝ)
    ∧ (∀ p ∈ (dfdxM (1 / 2 ^ 52 : ℝ) Real.sqrt (traceCall testF) 0).calls,
        testF p = if p = 1 then 0 else testF p)
    ∧ (dfdxM (1 / 2 ^ 52 : ℝ) Real.sqrt (traceCall testF) 0).calls.length = 4
    ∧ dfdx (1 / 2 ^ 52 : ℝ) Real.sqrt testF 0
        = dfdx (1 / 2 ^ 52 : ℝ) Real.sqrt (fun x => if x = 1 then 0 else testF x) 0
    ∧ (∀ p ∈ (d4fdx4M (1 / 2 ^ 52 : ℝ) Real.sqrt (traceCall testF) 0).calls,
        testF p = if p = 1 then 0 else testF p)
    ∧ (d4fdx4M (1 / 2 ^ 52 : ℝ) Real.sqrt (traceCall testF) 0).calls.length = 7
    ∧ d4fdx4 (1 / 2 ^ 52 : ℝ) Real.sqrt testF 0
        = d4fdx4 (1 / 2 ^ 52 : ℝ) Real.sqrt (fun x => if x = 1 then 0 else testF x) 0 := by
  obtain ⟨h, hh, ⟨c1, l1, -, i1⟩, -, -, ⟨c4, l4, i4⟩⟩ :=
    evaluation_points (1 / 2 ^ 52) (by norm_num) testF (fun x => if x = 1 then 0 else testF x) 0
  have h0 : h = 1 / 2 ^ 52 := by
    rw [hh, stepSize_real (1 / 2 ^ 52) (by norm_num) 0, if_pos rfl]
  have a1 : ∀ p ∈ (dfdxM (1 / 2 ^ 52 : ℝ) Real.sqrt (traceCall testF) 0).calls,
      testF p = if p = 1 then 0 else testF p := by
    intro p hp
    rw [c1, h0] at hp
    simp only [List.mem_cons, List.not_mem_nil, or_false] at hp
    have hp1 : p ≠ 1 := by
      rcases hp with e | e | e | e <;> rw [e] <;> norm_num
    rw [if_neg hp1]
  have a4 : ∀ p ∈ (d4fdx4M (1 / 2 ^ 52 : ℝ) Real.sqrt (traceCall testF) 0).calls,
      testF p = if p = 1 then 0 else testF p := by
    intro p hp
    rw [c4, h0] at hp
    simp only [List.mem_cons, List.not_mem_nil, or_false] at hp
    have hp1 : p ≠ 1 := by
      rcases hp with e | e | e | e | e | e | e <;> rw [e] <;> norm_num
    rw [if_neg hp1]
  exact ⟨by norm_num, a1, l1, i1 a1, a4, l4, i4 a4⟩

/-- C13: no coincident sample points. With a positive epsilon, for every
point (zero included), the points at which each operation calls `f` are
pairwise distinct, and `xi + j * h ≠ xi + k * h` for all distinct integer
offsets `j`, `k`, `h` being the step derived from `xi`. -/
theorem sample_points_distinct (ε : ℝ) (hε : 0 < ε) (f : ℝ → ℝ) (xi : ℝ) :
    (dfdxM ε Real.sqrt (traceCall f) xi).calls.Nodup
    ∧ (d2fdx2M ε Real.sqrt (traceCall f) xi).calls.Nodup
    ∧ (d3fdx3M ε Real.sqrt (traceCall f) xi).calls.Nodup
    ∧ (d4fdx4M ε Real.sqrt (traceCall f) xi).calls.Nodup
    ∧ ∀ j k : ℤ, j ≠ k →
        xi + (j : ℝ) * stepSize ε Real.sqrt xi ≠ xi + (k : ℝ) * stepSize ε Real.sqrt xi := by
  have hh := stepSize_real_ne_zero ε hε xi
  obtain ⟨c1, c2, c3, c4⟩ := opsM_traced_calls ε Real.sqrt f xi
  rw [c1, c2, c3, c4]
  generalize stepSize ε Real.sqrt xi = h at hh
  refine ⟨?_, ?_, ?_, ?_, ?_⟩
  · simp only [dfdxPoints, List.nodup_cons, List.mem_cons, List.not_mem_nil, or_false, not_or,
      List.nodup_nil, not_false_eq_true, and_true]
    refine ⟨⟨?_, ?_, ?_⟩, ⟨?_, ?_⟩, ?_⟩ <;> intro e <;> apply hh <;> linarith
  · simp only [d2fdx2Points, List.nodup_cons, List.mem_cons, List.not_mem_nil, or_false,
      not_or, List.nodup_nil, not_false_eq_true, and_true]
    refine ⟨⟨?_, ?_, ?_, ?_⟩, ⟨?_, ?_, ?_⟩, ⟨?_, ?_⟩, ?_⟩ <;> intro e <;> apply hh <;> linarith
  · simp only [d3fdx3Points, List.nodup_cons, List.mem_cons, List.not_mem_nil, or_false,
      not_or, List.nodup_nil, not_false_eq_true, and_true]
    refine ⟨⟨?_, ?_, ?_, ?_, ?_⟩, ⟨?_, ?_, ?_, ?_⟩, ⟨?_, ?_, ?_⟩, ⟨?_, ?_⟩, ?_⟩
      <;> intro e <;> apply hh <;> linarith
  · simp only [d4fdx4Points, List.nodup_cons, List.mem_cons, List.not_mem_nil, or_false,
      not_or, List.nodup_nil, not_false_eq_true, and_true]
    refine ⟨⟨?_, ?_, ?_, ?_, ?_, ?_⟩, ⟨?_, ?_, ?_, ?_, ?_⟩, ⟨?_, ?_, ?_, ?_⟩, ⟨?_, ?_, ?_⟩,
      ⟨?_, ?_⟩, ?_⟩ <;> intro e <;> apply hh <;> linarith
  · intro j k hjk e
    have e2 : ((j : ℝ) - (k : ℝ)) * h = 0 := by linarith
    rcases mul_eq_zero.mp e2 with e3 | e3
    · apply hjk
      have e4 : (j : ℝ) = (k : ℝ) := by linarith
      exact_mod_cast e4
    · exact hh e3

theorem sample_points_distinct_witness :
    0 < (1 / 2 ^ 52 : ℝ)
    ∧ (d4fdx4M (1 / 2 ^ 52 : ℝ) Real.sqrt (traceCall testF) 0).calls.Nodup
    ∧ (-3 : ℤ) ≠ 3
    ∧ (0 : ℝ) + ((-3 : ℤ) : ℝ) * stepSize (1 / 2 ^ 52 : ℝ) Real.sqrt 0
        ≠ 0 + ((3 : ℤ) : ℝ) * stepSize (1 / 2 ^ 52 : ℝ) Real.sqrt 0 :=
  have h := sample_points_distinct (1 / 2 ^ 52) (by norm_num) testF 0
  ⟨by norm_num, h.2.2.2.1, by decide, h.2.2.2.2 (-3) 3 (by decide)⟩

/-- C14: fault propagation. With `f` a function that may raise a fault
(`f : ℝ → Except E ℝ`) and a positive epsilon, each of the four operations
raises a fault exactly when `f` raises one at one of the operation's sample
points; a fault raised by the operation is a fault raised by `f` at one of
these points, unmodified; and when `f` succeeds at every sample point the
operation returns a value (the division guard does not fire). -/
theorem fault_propagation {E : Type} (ε : ℝ) (hε : 0 < ε) (f : ℝ → Except E ℝ) (xi : ℝ) :
    ((∀ e, dfdxM ε Real.sqrt f xi = Except.error e →
        ∃ p ∈ dfdxPoints xi (stepSize ε Real.sqrt xi), f p = Except.error e)
      ∧ ((∃ p ∈ dfdxPoints xi (stepSize ε Real.sqrt xi), ∃ e, f p = Except.error e) →
        ∃ e, dfdxM ε Real.sqrt f xi = Except.error e)
      ∧ ((∀ p ∈ dfdxPoints xi (stepSize ε Real.sqrt xi), ∃ v, f p = Except.ok v) →
        ∃ v, dfdxM ε Real.sqrt f xi = Except.ok (some v)))
    ∧ ((∀ e, d2fdx2M ε Real.sqrt f xi = Except.error e →
        ∃ p ∈ d2fdx2Points xi (stepSize ε Real.sqrt xi), f p = Except.error e)
      ∧ ((∃ p ∈ d2fdx2Points xi (stepSize ε Real.sqrt xi), ∃ e, f p = Except.error e) →
        ∃ e, d2fdx2M ε Real.sqrt f xi = Except.error e)
      ∧ ((∀ p ∈ d2fdx2Points xi (stepSize ε Real.sqrt xi), ∃ v, f p = Except.ok v) →
        ∃ v, d2fdx2M ε Real.sqrt f xi = Except.ok (some v)))
    ∧ ((∀ e, d3fdx3M ε Real.sqrt f xi = Except.error e →
        ∃ p ∈ d3fdx3Points xi (stepSize ε Real.sqrt xi), f p = Except.error e)
      ∧ ((∃ p ∈ d3fdx3Points xi (stepSize ε Real.sqrt xi), ∃ e, f p = Except.error e) →
        ∃ e, d3fdx3M ε Real.sqrt f xi = Except.error e)
      ∧ ((∀ p ∈ d3fdx3Points xi (stepSize ε Real.sqrt xi), ∃ v, f p = Except.ok v) →
        ∃ v, d3fdx3M ε Real.sqrt f xi = Except.ok (some v)))
    ∧ ((∀ e, d4fdx4M ε Real.sqrt f xi = Except.error e →
        ∃ p ∈ d4fdx4Points xi (stepSize ε Real.sqrt xi), f p = Except.error e)
      ∧ ((∃ p ∈ d4fdx4Points xi (stepSize ε Real.sqrt xi), ∃ e, f p = Except.error e) →
        ∃ e, d4fdx4M ε Real.sqrt f xi = Except.error e)
      ∧ ((∀ p ∈ d4fdx4Points xi (stepSize ε Real.sqrt xi), ∃ v, f p = Except.ok v) →
        ∃ v, d4fdx4M ε Real.sqrt f xi = Except.ok (some v))) :=
  ⟨dfdxM_faults ε hε f xi, d2fdx2M_faults ε hε f xi, d3fdx3M_faults ε hε f xi,
    d4fdx4M_faults ε hε f xi⟩

/-- The reciprocal, which faults at `0`: at `xi = 0`, `d2fdx2` samples the
centre and faults with the fault of `f`, while `dfdx` does not sample the
centre and returns a value. -/
theorem fault_propagation_witness :
    0 < (1 / 2 ^ 52 : ℝ)
    ∧ (∃ p ∈ d2fdx2Points (0 : ℝ) (stepSize (1 / 2 ^ 52 : ℝ) Real.sqrt 0),
        ∃ e, (fun x : ℝ => if x = 0 then Except.error "pole" else Except.ok (1 / x)) p
          = Except.error e)
    ∧ (∃ e, d2fdx2M (1 / 2 ^ 52 : ℝ) Real.sqrt
        (fun x : ℝ => if x = 0 then Except.error "pole" else Except.ok (1 / x)) 0
          = Except.error e)
    ∧ (∀ p ∈ dfdxPoints (0 : ℝ) (stepSize (1 / 2 ^ 52 : ℝ) Real.sqrt 0),
        ∃ v, (fun x : ℝ => if x = 0 then Except.error "pole" else Except.ok (1 / x)) p
          = Except.ok v)
    ∧ (∃ v, dfdxM (1 / 2 ^ 52 : ℝ) Real.sqrt
        (fun x : ℝ => if x = 0 then Except.error "pole" else Except.ok (1 / x)) 0
          = Except.ok (some v)) := by
  have h := fault_propagation (1 / 2 ^ 52) (by norm_num)
    (fun x : ℝ => if x = 0 then Except.error "pole" else Except.ok (1 / x)) 0
  have h0 : stepSize (1 / 2 ^ 52 : ℝ) Real.sqrt 0 = 1 / 2 ^ 52 := by
    rw [stepSize_real (1 / 2 ^ 52) (by norm_num) 0, if_pos rfl]
  have a2 : ∃ p ∈ d2fdx2Points (0 : ℝ) (stepSize (1 / 2 ^ 52 : ℝ) Real.sqrt 0),
      ∃ e, (fun x : ℝ => if x = 0 then Except.error "pole" else Except.ok (1 / x)) p
        = Except.error e := by
    refine ⟨0, ?_, "pole", ?_⟩
    · simp [d2fdx2Points]
    · simp
  have a1 : ∀ p ∈ dfdxPoints (0 : ℝ) (stepSize (1 / 2 ^ 52 : ℝ) Real.sqrt 0),
      ∃ v, (fun x : ℝ => if x = 0 then Except.error "pole" else Except.ok (1 / x)) p
        = Except.ok v := by
    intro p hp
    rw [h0] at hp
    simp only [dfdxPoints, List.mem_cons, List.not_mem_nil, or_false] at hp
    have hp0 : p ≠ 0 := by
      rcases hp with e | e | e | e <;> rw [e] <;> norm_num
    exact ⟨1 / p, by simp [hp0]⟩
  exact ⟨by norm_num, a2, h.2.1.2.1 a2, a1, h.1.2.2 a1⟩

/-- C15: linearity in the function argument. With a positive epsilon, for
all functions `f`, `g`, scalars `a`, `b` and every point, each of the four
operations returns on `a * f + b * g` the value `a * u + b * v`, where `u`
and `v` are the values it returns on `f` and on `g`. -/
theorem linearity (ε : ℝ) (hε : 0 < ε) (f g : ℝ → ℝ) (a b xi : ℝ) :
    (∃ u v, dfdx ε Real.sqrt f xi = some u ∧ dfdx ε Real.sqrt g xi = some v
      ∧ dfdx ε Real.sqrt (fun x => a * f x + b * g x) xi = some (a * u + b * v))
    ∧ (∃ u v, d2fdx2 ε Real.sqrt f xi = some u ∧ d2fdx2 ε Real.sqrt g xi = some v
      ∧ d2fdx2 ε Real.sqrt (fun x => a * f x + b * g x) xi = some (a * u + b * v))
    ∧ (∃ u v, d3fdx3 ε Real.sqrt f xi = some u ∧ d3fdx3 ε Real.sqrt g xi = some v
      ∧ d3fdx3 ε Real.sqrt (fun x => a * f x + b * g x) xi = some (a * u + b * v))
    ∧ (∃ u v, d4fdx4 ε Real.sqrt f xi = some u ∧ d4fdx4 ε Real.sqrt g xi = some v
      ∧ d4fdx4 ε Real.sqrt (fun x => a * f x + b * g x) xi = some (a * u + b * v)) := by
  obtain ⟨f1, f2, f3, f4⟩ := ops_real_eq_at ε hε f xi
  obtain ⟨g1, g2, g3, g4⟩ := ops_real_eq_at ε hε g xi
  obtain ⟨s1, s2, s3, s4⟩ := ops_real_eq_at ε hε (fun x => a * f x + b * g x) xi
  refine ⟨⟨_, _, f1, g1, ?_⟩, ⟨_, _, f2, g2, ?_⟩, ⟨_, _, f3, g3, ?_⟩, ⟨_, _, f4, g4, ?_⟩⟩
  · rw [s1]
    unfold dfdxAt
    congr 1
    ring
  · rw [s2]
    unfold d2fdx2At
    congr 1
    ring
  · rw [s3]
    unfold d3fdx3At
    congr 1
    ring
  · rw [s4]
    unfold d4fdx4At
    congr 1
    ring

theorem linearity_witness :
    0 < (1 / 2 ^ 52 : ℝ)
    ∧ ∃ u v, d4fdx4 (1 / 2 ^ 52 : ℝ) Real.sqrt testF 4 = some u
      ∧ d4fdx4 (1 / 2 ^ 52 : ℝ) Real.sqrt (fun x => x ^ 2) 4 = some v
      ∧ d4fdx4 (1 / 2 ^ 52 : ℝ) Real.sqrt (fun x => 3 * testF x + (-5) * x ^ 2) 4
          = some (3 * u + (-5) * v) :=
  ⟨by norm_num,
    (linearity (1 / 2 ^ 52) (by norm_num) testF (fun x => x ^ 2) 3 (-5) 4).2.2.2⟩

/-- C17 (evaluation at the failing inputs): the weights `d4fdx4` applies to
`f(xi - h)` and `f(xi + h)` are `-39` and `+39`, those it applies to
`f(xi - 3h)` and `f(xi + 3h)` are `+1` and `-1`; for `f(x) = x` at `xi = 0`
the return expression is `12` at step `1` and `-12` at step `-1`; and with
the epsilon of `double`, `d4fdx4` of `f(x) = x` at `xi = -1` (step `-2^-26`)
differs from the return expression at the positive step `2^-26`. -/
theorem d4fdx4_stencil_not_symmetric :
    d4fdx4At (fun x : ℚ => if x = -1 then 1 else 0) 0 1 = -39 / 6
    ∧ d4fdx4At (fun x : ℚ => if x = 1 then 1 else 0) 0 1 = 39 / 6
    ∧ d4fdx4At (fun x : ℚ => if x = -3 then 1 else 0) 0 1 = 1 / 6
    ∧ d4fdx4At (fun x : ℚ => if x = 3 then 1 else 0) 0 1 = -1 / 6
    ∧ d4fdx4At (fun x : ℚ => x) 0 1 = 12
    ∧ d4fdx4At (fun x : ℚ => x) 0 (-1) = -12
    ∧ d4fdx4 doubleEps Rat.sqrt (fun x : ℚ => x) (-1)
        = some (d4fdx4At (fun x : ℚ => x) (-1) (-(1 / 2 ^ 26)))
    ∧ d4fdx4At (fun x : ℚ => x) (-1) (-(1 / 2 ^ 26))
        ≠ d4fdx4At (fun x : ℚ => x) (-1) (1 / 2 ^ 26) := by
  refine ⟨?_, ?_, ?_, ?_, ?_, ?_, ?_, ?_⟩
  · norm_num [d4fdx4At]
  · norm_num [d4fdx4At]
  · norm_num [d4fdx4At]
  · norm_num [d4fdx4At]
  · norm_num [d4fdx4At]
  · norm_num [d4fdx4At]
  · unfold d4fdx4 guardedDiv d4fdx4At
    rw [doubleEps_sqrt]
    norm_num
  · norm_num [d4fdx4At]

end Derivatives
